import Mathlib

/-!
Verification development for the MAS-Group-Formation matching and allocation
engine.  The Lean definitions below are shallow embeddings of the Python code
in src/agents/matcher_agent.py, src/agents/matcher_agent_ga.py and
src/agents/coordinator_agent.py.  Numeric values (Python floats) are modelled
as rationals; Python dictionaries fetched from the database are modelled as
structures; a missing row (student with no personality_traits record, NULL
gwa column) is modelled with Option.  Randomness (random.random,
random.choice, DEAP operators) is modelled by an explicit stream of rational
draws in [0,1): an index draw for a list of length n is interpreted as
floor(q * n).
-/

namespace MAS

/-- A technical_skills row: (skill_name, proficiency_level, years_experience). -/
structure Skill where
  skill_name : String
  proficiency_level : String
  years_experience : ℚ
deriving DecidableEq

/-- A personality_traits row.  In the Python code the traits dictionary is
either complete (a full row) or empty; the empty case is modelled by
Option.none at the Student level. -/
structure Traits where
  openness : ℚ
  conscientiousness : ℚ
  extraversion : ℚ
  agreeableness : ℚ
  neuroticism : ℚ
deriving DecidableEq

/-- An availability row with is_available = 1 (only those are fetched). -/
structure Avail where
  day_of_week : String
  time_slot : String
deriving DecidableEq

/-- A student record as assembled by fetch_students: gwa column (NULL modelled
as none), the list of skill rows, the traits row (empty dict modelled as
none) and the list of available slots. -/
structure Student where
  gwa : Option ℚ
  skills : List Skill
  traits : Option Traits
  availability : List Avail
deriving DecidableEq

instance : Inhabited Student := ⟨⟨none, [], none, []⟩⟩

/-- Python round(x, 3): round to 3 decimal places, ties to even
(bankers rounding, as the Python round builtin does). -/
def round3 (q : ℚ) : ℚ :=
  let n : ℤ := ⌊q * 1000⌋
  let frac : ℚ := q * 1000 - n
  let r : ℤ :=
    if frac > 1/2 then n + 1
    else if frac < 1/2 then n
    else if n % 2 = 0 then n else n + 1
  (r : ℚ) / 1000

/-- The skill-name set of a student (Python set comprehension over the
skills rows). -/
def skillNames (s : Student) : Finset String :=
  (s.skills.map Skill.skill_name).toFinset

/-- MatcherAgent.calculate_skill_diversity (matcher_agent.py lines 75-97). -/
def calculate_skill_diversity (student1 student2 : Student) : ℚ :=
  let skills1 := skillNames student1
  let skills2 := skillNames student2
  if skills1 = ∅ ∨ skills2 = ∅ then 1/2
  else
    let total_skills := skills1 ∪ skills2
    let common_skills := skills1 ∩ skills2
    let overlap_ratio : ℚ :=
      if total_skills ≠ ∅ then (common_skills.card : ℚ) / (total_skills.card : ℚ) else 0
    let diversity_score := 1 - |overlap_ratio - 1/2| * 2
    max 0 diversity_score

/-- MatcherAgent.calculate_gwa_balance (matcher_agent.py lines 99-124).
The Python code tests whether either gwa is None. -/
def calculate_gwa_balance (student1 student2 : Student) : ℚ :=
  match student1.gwa, student2.gwa with
  | some gwa1, some gwa2 =>
    let norm_gwa1 := (5 - gwa1) / 4
    let norm_gwa2 := (5 - gwa2) / 4
    let gwa_diff := |norm_gwa1 - norm_gwa2|
    if 1/5 ≤ gwa_diff ∧ gwa_diff ≤ 1/2 then 1
    else if gwa_diff < 1/5 then 7/10
    else 3/5
  | _, _ => 1/2

/-- The "day_slot" key built for each availability row. -/
def slotKey (a : Avail) : String := a.day_of_week ++ "_" ++ a.time_slot

/-- The available-slot set of a student. -/
def availSet (s : Student) : Finset String :=
  (s.availability.map slotKey).toFinset

/-- MatcherAgent.calculate_schedule_overlap (matcher_agent.py lines 126-146). -/
def calculate_schedule_overlap (student1 student2 : Student) : ℚ :=
  let avail1 := availSet student1
  let avail2 := availSet student2
  if avail1 = ∅ ∨ avail2 = ∅ then 1/2
  else
    let common_slots := avail1 ∩ avail2
    let total_possible := (avail1 ∪ avail2).card
    if 0 < total_possible then (common_slots.card : ℚ) / (total_possible : ℚ) else 0

/-- MatcherAgent.calculate_personality_compatibility (matcher_agent.py lines
148-177).  A fetched traits dictionary is either complete or empty, so the
per-key defaults of dict.get never fire on a present row. -/
def calculate_personality_compatibility (student1 student2 : Student) : ℚ :=
  match student1.traits, student2.traits with
  | some traits1, some traits2 =>
    let consc_diff := |traits1.conscientiousness - traits2.conscientiousness|
    let consc_score := 1 - consc_diff / 4
    let agree_avg := (traits1.agreeableness + traits2.agreeableness) / 2
    let agree_score := agree_avg / 5
    let extra_diff := |traits1.extraversion - traits2.extraversion|
    let extra_score := extra_diff / 4
    consc_score * (2/5) + agree_score * (2/5) + extra_score * (1/5)
  | _, _ => 1/2

/-- MatcherAgent.calculate_compatibility (matcher_agent.py lines 179-205). -/
def calculate_compatibility (student1 student2 : Student) : ℚ :=
  let skill_score := calculate_skill_diversity student1 student2
  let gwa_score := calculate_gwa_balance student1 student2
  let schedule_score := calculate_schedule_overlap student1 student2
  let personality_score := calculate_personality_compatibility student1 student2
  round3 (skill_score * (3/10) + gwa_score * (1/5) +
          schedule_score * (3/10) + personality_score * (1/5))

/-! MatcherAgentGA.calculate_compatibility (matcher_agent_ga.py lines 64-130)
is a single Python function computing local variables skill_score, gwa_score,
schedule_score and personality_score; each local is embedded as one
definition below.  The GWA guard is Python truthiness
(if student1[gwa] and student2[gwa], Python truthiness), so a GWA of 0 is treated like a
missing one, and the skill branch has neither the total_skills guard nor
the max(0, _) clamp of the simple agent. -/

/-- skill_score of MatcherAgentGA.calculate_compatibility (lines 66-76). -/
def ga_skill_score (student1 student2 : Student) : ℚ :=
  let skills1 := skillNames student1
  let skills2 := skillNames student2
  if skills1 ≠ ∅ ∧ skills2 ≠ ∅ then
    let total_skills := skills1 ∪ skills2
    let common_skills := skills1 ∩ skills2
    let overlap_ratio := (common_skills.card : ℚ) / (total_skills.card : ℚ)
    1 - |overlap_ratio - 1/2| * 2
  else 1/2

/-- gwa_score of MatcherAgentGA.calculate_compatibility (lines 78-91): the
guard is the Python-truthiness test on both gwa fields. -/
def ga_gwa_score (student1 student2 : Student) : ℚ :=
  match student1.gwa, student2.gwa with
  | some gwa1, some gwa2 =>
    if gwa1 ≠ 0 ∧ gwa2 ≠ 0 then
      let norm_gwa1 := (5 - gwa1) / 4
      let norm_gwa2 := (5 - gwa2) / 4
      let gwa_diff := |norm_gwa1 - norm_gwa2|
      if 1/5 ≤ gwa_diff ∧ gwa_diff ≤ 1/2 then 1
      else if gwa_diff < 1/5 then 7/10
      else 3/5
    else 1/2
  | _, _ => 1/2

/-- schedule_score of MatcherAgentGA.calculate_compatibility (lines 93-102). -/
def ga_schedule_score (student1 student2 : Student) : ℚ :=
  let avail1 := availSet student1
  let avail2 := availSet student2
  if avail1 ≠ ∅ ∧ avail2 ≠ ∅ then
    let common_slots := avail1 ∩ avail2
    let total_possible := (avail1 ∪ avail2).card
    if 0 < total_possible then (common_slots.card : ℚ) / (total_possible : ℚ) else 0
  else 1/2

/-- personality_score of MatcherAgentGA.calculate_compatibility
(lines 104-120). -/
def ga_personality_score (student1 student2 : Student) : ℚ :=
  match student1.traits, student2.traits with
  | some traits1, some traits2 =>
    let consc_score := 1 - |traits1.conscientiousness - traits2.conscientiousness| / 4
    let agree_score := ((traits1.agreeableness + traits2.agreeableness) / 2) / 5
    let extra_score := |traits1.extraversion - traits2.extraversion| / 4
    consc_score * (2/5) + agree_score * (2/5) + extra_score * (1/5)
  | _, _ => 1/2

/-- MatcherAgentGA.calculate_compatibility (matcher_agent_ga.py lines
64-130): weighted combination of the four sub-scores, rounded to 3 places. -/
def ga_calculate_compatibility (student1 student2 : Student) : ℚ :=
  round3 (ga_skill_score student1 student2 * (3/10) +
          ga_gwa_score student1 student2 * (1/5) +
          ga_schedule_score student1 student2 * (3/10) +
          ga_personality_score student1 student2 * (1/5))

/-- Personality traits in the 1..5 Likert range of the data model (the
personality_traits seeding draws integers in [1,5]). -/
def validTraits (t : Traits) : Prop :=
  1 ≤ t.conscientiousness ∧ t.conscientiousness ≤ 5 ∧
  1 ≤ t.agreeableness ∧ t.agreeableness ≤ 5 ∧
  1 ≤ t.extraversion ∧ t.extraversion ≤ 5

/-- A student record of the data model: the traits row, when present, holds
scores on the 1..5 scale.  All other attributes are unconstrained (they may
be empty or missing). -/
def validStudent (s : Student) : Prop :=
  ∀ t, s.traits = some t → validTraits t

theorem round3_bounds {q : ℚ} (h0 : 0 ≤ q) (h1 : q ≤ 1) :
    0 ≤ round3 q ∧ round3 q ≤ 1 := by
  have hq0 : (0:ℚ) ≤ q * 1000 := by positivity
  have hq1 : q * 1000 ≤ 1000 := by nlinarith
  have hn0 : (0:ℤ) ≤ ⌊q * 1000⌋ := Int.floor_nonneg.mpr hq0
  have hfl : ((⌊q * 1000⌋ : ℤ) : ℚ) ≤ q * 1000 := Int.floor_le _
  have hn1 : ⌊q * 1000⌋ ≤ 1000 := by exact_mod_cast hfl.trans hq1
  simp only [round3]
  split_ifs with hgt hlt hev
  · have hlt1000 : ⌊q * 1000⌋ < 1000 := by
      by_contra hc
      push_neg at hc
      have : (1000:ℚ) ≤ (⌊q * 1000⌋ : ℚ) := by exact_mod_cast hc
      linarith
    constructor
    · positivity
    · rw [div_le_one (by norm_num)]
      have : ⌊q * 1000⌋ + 1 ≤ 1000 := hlt1000
      exact_mod_cast this
  · constructor
    · positivity
    · rw [div_le_one (by norm_num)]
      exact_mod_cast hn1
  · constructor
    · positivity
    · rw [div_le_one (by norm_num)]
      exact_mod_cast hn1
  · have heq : q * 1000 - (⌊q * 1000⌋ : ℚ) = 1/2 := le_antisymm (not_lt.mp hgt) (not_lt.mp hlt)
    have hlt1000 : ⌊q * 1000⌋ < 1000 := by
      by_contra hc
      push_neg at hc
      have : (1000:ℚ) ≤ (⌊q * 1000⌋ : ℚ) := by exact_mod_cast hc
      linarith
    constructor
    · positivity
    · rw [div_le_one (by norm_num)]
      have : ⌊q * 1000⌋ + 1 ≤ 1000 := hlt1000
      exact_mod_cast this

theorem max_clamp_unit (x : ℚ) :
    0 ≤ max 0 (1 - |x - 1/2| * 2) ∧ max 0 (1 - |x - 1/2| * 2) ≤ 1 := by
  refine ⟨le_max_left 0 _, max_le (by norm_num) ?_⟩
  have := abs_nonneg (x - 1/2)
  linarith

theorem skill_diversity_bounds (s1 s2 : Student) :
    0 ≤ calculate_skill_diversity s1 s2 ∧ calculate_skill_diversity s1 s2 ≤ 1 := by
  simp only [calculate_skill_diversity]
  split_ifs with h hne
  · norm_num
  · exact max_clamp_unit _
  · exact max_clamp_unit 0

theorem gwa_balance_bounds (s1 s2 : Student) :
    0 ≤ calculate_gwa_balance s1 s2 ∧ calculate_gwa_balance s1 s2 ≤ 1 := by
  unfold calculate_gwa_balance
  rcases s1.gwa with _ | g1 <;> rcases s2.gwa with _ | g2
  · norm_num
  · norm_num
  · norm_num
  · dsimp only
    split_ifs <;> norm_num

theorem schedule_overlap_bounds (s1 s2 : Student) :
    0 ≤ calculate_schedule_overlap s1 s2 ∧ calculate_schedule_overlap s1 s2 ≤ 1 := by
  simp only [calculate_schedule_overlap]
  split_ifs with h hpos
  · norm_num
  · constructor
    · positivity
    · rw [div_le_one (by exact_mod_cast hpos)]
      have hsub : (availSet s1 ∩ availSet s2) ⊆ (availSet s1 ∪ availSet s2) :=
        le_trans Finset.inter_subset_left Finset.subset_union_left
      exact_mod_cast Finset.card_le_card hsub
  · norm_num

theorem personality_bounds (s1 s2 : Student)
    (h1 : validStudent s1) (h2 : validStudent s2) :
    0 ≤ calculate_personality_compatibility s1 s2 ∧
    calculate_personality_compatibility s1 s2 ≤ 1 := by
  unfold calculate_personality_compatibility
  rcases ht1 : s1.traits with _ | t1 <;> rcases ht2 : s2.traits with _ | t2
  · norm_num
  · norm_num
  · norm_num
  · dsimp only
    obtain ⟨hc1a, hc1b, ha1a, ha1b, he1a, he1b⟩ := h1 t1 ht1
    obtain ⟨hc2a, hc2b, ha2a, ha2b, he2a, he2b⟩ := h2 t2 ht2
    have hdc : |t1.conscientiousness - t2.conscientiousness| ≤ 4 :=
      abs_le.mpr ⟨by linarith, by linarith⟩
    have hdc0 : 0 ≤ |t1.conscientiousness - t2.conscientiousness| := abs_nonneg _
    have hde : |t1.extraversion - t2.extraversion| ≤ 4 :=
      abs_le.mpr ⟨by linarith, by linarith⟩
    have hde0 : 0 ≤ |t1.extraversion - t2.extraversion| := abs_nonneg _
    constructor <;> nlinarith

theorem skill_diversity_comm (s1 s2 : Student) :
    calculate_skill_diversity s1 s2 = calculate_skill_diversity s2 s1 := by
  simp only [calculate_skill_diversity]
  simp only [or_comm, Finset.union_comm, Finset.inter_comm]

theorem gwa_balance_comm (s1 s2 : Student) :
    calculate_gwa_balance s1 s2 = calculate_gwa_balance s2 s1 := by
  unfold calculate_gwa_balance
  rcases s1.gwa with _ | g1 <;> rcases s2.gwa with _ | g2
  · rfl
  · rfl
  · rfl
  · dsimp only
    rw [abs_sub_comm]

theorem schedule_overlap_comm (s1 s2 : Student) :
    calculate_schedule_overlap s1 s2 = calculate_schedule_overlap s2 s1 := by
  simp only [calculate_schedule_overlap]
  simp only [or_comm, Finset.union_comm, Finset.inter_comm]

theorem personality_comm (s1 s2 : Student) :
    calculate_personality_compatibility s1 s2 = calculate_personality_compatibility s2 s1 := by
  unfold calculate_personality_compatibility
  rcases s1.traits with _ | t1 <;> rcases s2.traits with _ | t2
  · rfl
  · rfl
  · rfl
  · dsimp only
    rw [abs_sub_comm t1.conscientiousness, abs_sub_comm t1.extraversion,
        add_comm t1.agreeableness]

theorem compatibility_comm (s1 s2 : Student) :
    calculate_compatibility s1 s2 = calculate_compatibility s2 s1 := by
  unfold calculate_compatibility
  rw [skill_diversity_comm, gwa_balance_comm, schedule_overlap_comm, personality_comm]

theorem compatibility_bounds (s1 s2 : Student)
    (h1 : validStudent s1) (h2 : validStudent s2) :
    0 ≤ calculate_compatibility s1 s2 ∧ calculate_compatibility s1 s2 ≤ 1 := by
  obtain ⟨sk0, sk1⟩ := skill_diversity_bounds s1 s2
  obtain ⟨g0, g1⟩ := gwa_balance_bounds s1 s2
  obtain ⟨sc0, sc1⟩ := schedule_overlap_bounds s1 s2
  obtain ⟨p0, p1⟩ := personality_bounds s1 s2 h1 h2
  unfold calculate_compatibility
  exact round3_bounds (by linarith) (by linarith)

/-- C1: for all student records (attribute lists and rows may be empty or
missing; present trait rows carry scores on the 1..5 scale of the data model),
MatcherAgent.calculate_compatibility is symmetric and its value lies in
the closed interval [0, 1]. -/
theorem c1_compatibility_symmetric_unit_range (s1 s2 : Student)
    (h1 : validStudent s1) (h2 : validStudent s2) :
    calculate_compatibility s1 s2 = calculate_compatibility s2 s1 ∧
    0 ≤ calculate_compatibility s1 s2 ∧ calculate_compatibility s1 s2 ≤ 1 :=
  ⟨compatibility_comm s1 s2, compatibility_bounds s1 s2 h1 h2⟩

def studentA : Student :=
  ⟨some (5/4), [⟨"Python", "Expert", 2⟩], some ⟨3, 4, 2, 5, 3⟩, [⟨"Monday", "8:00-10:00"⟩]⟩

def studentB : Student := ⟨none, [], none, []⟩

/-- Witness for C1 at a pair of concrete students (one fully populated, one
with every attribute missing). -/
theorem c1_witness :
    validStudent studentA ∧ validStudent studentB ∧
    (calculate_compatibility studentA studentB = calculate_compatibility studentB studentA ∧
     0 ≤ calculate_compatibility studentA studentB ∧
     calculate_compatibility studentA studentB ≤ 1) := by
  have hA : validStudent studentA := by
    intro t ht
    injection ht with h
    subst h
    exact ⟨by norm_num, by norm_num, by norm_num, by norm_num, by norm_num, by norm_num⟩
  have hB : validStudent studentB := by
    intro t ht
    exact Option.noConfusion ht
  exact ⟨hA, hB, c1_compatibility_symmetric_unit_range studentA studentB hA hB⟩

/-- C9: the skill-diversity sub-score is exactly 1/2 whenever either
skill-name set of either student is empty. -/
theorem c9_empty_skills_neutral (s1 s2 : Student)
    (h : skillNames s1 = ∅ ∨ skillNames s2 = ∅) :
    calculate_skill_diversity s1 s2 = 1/2 := by
  simp only [calculate_skill_diversity]
  rw [if_pos h]

/-- Witness for C9: a student with an empty skill list against a student
with skills. -/
theorem c9_witness :
    (skillNames studentB = ∅ ∨ skillNames studentA = ∅) ∧
    calculate_skill_diversity studentB studentA = 1/2 := by
  have h : skillNames studentB = ∅ ∨ skillNames studentA = ∅ := Or.inl (by with_unfolding_all decide)
  exact ⟨h, c9_empty_skills_neutral studentB studentA h⟩

theorem skill_diversity_eq_ga (s1 s2 : Student) :
    calculate_skill_diversity s1 s2 = ga_skill_score s1 s2 := by
  simp only [calculate_skill_diversity, ga_skill_score]
  by_cases ha : skillNames s1 = ∅
  · rw [if_pos (Or.inl ha), if_neg (by tauto)]
  · by_cases hb : skillNames s2 = ∅
    · rw [if_pos (Or.inr hb), if_neg (by tauto)]
    · have hT : skillNames s1 ∪ skillNames s2 ≠ ∅ := fun hc =>
        ha (Finset.union_eq_empty.mp hc).1
      rw [if_neg (show ¬(skillNames s1 = ∅ ∨ skillNames s2 = ∅) by tauto),
          if_pos hT, if_pos (show skillNames s1 ≠ ∅ ∧ skillNames s2 ≠ ∅ from ⟨ha, hb⟩)]
      have hTpos : (0:ℚ) < ((skillNames s1 ∪ skillNames s2).card : ℚ) := by
        exact_mod_cast Finset.card_pos.mpr (Finset.nonempty_iff_ne_empty.mpr hT)
      have hr0 : (0:ℚ) ≤ ((skillNames s1 ∩ skillNames s2).card : ℚ) /
          ((skillNames s1 ∪ skillNames s2).card : ℚ) := by positivity
      have hr1 : ((skillNames s1 ∩ skillNames s2).card : ℚ) /
          ((skillNames s1 ∪ skillNames s2).card : ℚ) ≤ 1 := by
        rw [div_le_one hTpos]
        exact_mod_cast Finset.card_le_card
          (le_trans Finset.inter_subset_left Finset.subset_union_left)
      have habs : |((skillNames s1 ∩ skillNames s2).card : ℚ) /
          ((skillNames s1 ∪ skillNames s2).card : ℚ) - 1/2| ≤ 1/2 :=
        abs_le.mpr ⟨by linarith, by linarith⟩
      exact max_eq_right (by linarith)

theorem gwa_balance_eq_ga (s1 s2 : Student)
    (h1 : s1.gwa ≠ some 0) (h2 : s2.gwa ≠ some 0) :
    calculate_gwa_balance s1 s2 = ga_gwa_score s1 s2 := by
  unfold calculate_gwa_balance ga_gwa_score
  rcases hg1 : s1.gwa with _ | g1 <;> rcases hg2 : s2.gwa with _ | g2
  · rfl
  · rfl
  · rfl
  · dsimp only
    rw [if_pos (show g1 ≠ 0 ∧ g2 ≠ 0 from
      ⟨fun hc => h1 (hg1.trans (by rw [hc])), fun hc => h2 (hg2.trans (by rw [hc]))⟩)]

theorem schedule_overlap_eq_ga (s1 s2 : Student) :
    calculate_schedule_overlap s1 s2 = ga_schedule_score s1 s2 := by
  simp only [calculate_schedule_overlap, ga_schedule_score]
  by_cases ha : availSet s1 = ∅
  · rw [if_pos (Or.inl ha), if_neg (by tauto)]
  · by_cases hb : availSet s2 = ∅
    · rw [if_pos (Or.inr hb), if_neg (by tauto)]
    · rw [if_neg (show ¬(availSet s1 = ∅ ∨ availSet s2 = ∅) by tauto),
          if_pos (show availSet s1 ≠ ∅ ∧ availSet s2 ≠ ∅ from ⟨ha, hb⟩)]

theorem personality_eq_ga (s1 s2 : Student) :
    calculate_personality_compatibility s1 s2 = ga_personality_score s1 s2 := by
  unfold calculate_personality_compatibility ga_personality_score
  rcases s1.traits with _ | t1 <;> rcases s2.traits with _ | t2 <;> rfl

/-- C8 counterexample input: a student whose GWA column holds 0. -/
def studentGwaZero : Student := ⟨some 0, [], none, []⟩

/-- C8 counterexample input: a student with GWA 5. -/
def studentGwaFive : Student := ⟨some 5, [], none, []⟩

/-- C8 is false as stated: the claim includes pairs where a GWA field is
zero, and there MatcherAgent.calculate_compatibility (which only treats
None as missing) and MatcherAgentGA.calculate_compatibility (Python
truthiness: 0 is also treated as missing) disagree: 0.52 versus 0.5. -/
theorem c8_counterexample :
    calculate_compatibility studentGwaZero studentGwaFive ≠
    ga_calculate_compatibility studentGwaZero studentGwaFive := by
  with_unfolding_all decide

/-- C8 amended: MatcherAgent.calculate_compatibility and
MatcherAgentGA.calculate_compatibility agree on every pair of students in
which no GWA field is exactly zero (missing/None GWA, and all other empty
or missing attributes, included); for a zero GWA the two scoring models
differ, as the counterexample shows. -/
theorem c8_amended_compat_agree_no_zero_gwa (s1 s2 : Student)
    (h1 : s1.gwa ≠ some 0) (h2 : s2.gwa ≠ some 0) :
    calculate_compatibility s1 s2 = ga_calculate_compatibility s1 s2 := by
  unfold calculate_compatibility ga_calculate_compatibility
  rw [skill_diversity_eq_ga, gwa_balance_eq_ga s1 s2 h1 h2,
      schedule_overlap_eq_ga, personality_eq_ga]

/-- Witness for C8 (amended) at concrete students with nonzero and missing
GWA fields. -/
theorem c8_witness :
    studentA.gwa ≠ some 0 ∧ studentB.gwa ≠ some 0 ∧
    calculate_compatibility studentA studentB =
      ga_calculate_compatibility studentA studentB := by
  have h1 : studentA.gwa ≠ some 0 := by with_unfolding_all decide
  have h2 : studentB.gwa ≠ some 0 := by with_unfolding_all decide
  exact ⟨h1, h2, c8_amended_compat_agree_no_zero_gwa studentA studentB h1 h2⟩

/-! ### Greedy group formation (MatcherAgent.form_groups_simple) -/

/-- MatcherAgent.create_compatibility_matrix (matcher_agent.py lines
207-223): an n by n matrix, zero diagonal, filled symmetrically with
calculate_compatibility(students[i], students[j]) for i < j. -/
def create_compatibility_matrix (students : List Student) : List (List ℚ) :=
  let n := students.length
  (List.range n).map (fun i => (List.range n).map (fun j =>
    if i < j then calculate_compatibility (students.getD i default) (students.getD j default)
    else if j < i then calculate_compatibility (students.getD j default) (students.getD i default)
    else 0))

/-- matrix[i][j] (out-of-range reads, which the Python code never performs,
give 0). -/
def matrixGet (m : List (List ℚ)) (i j : ℕ) : ℚ := (m.getD i []).getD j 0

/-- Average compatibility of a candidate with the current group members
(form_groups_simple lines 260-261). -/
def avgCompatWith (m : List (List ℚ)) (group : List ℕ) (candidate : ℕ) : ℚ :=
  (group.map (fun member => matrixGet m candidate member)).sum / (group.length : ℚ)

/-- The best_candidate / best_score selection loop of form_groups_simple
(lines 254-265): scan candidates in order, starting from best_score = -1,
keeping the first candidate whose average compatibility is strictly greater
than the best so far. -/
def selectBest (m : List (List ℚ)) (group cands : List ℕ) : Option ℕ × ℚ :=
  cands.foldl (fun acc candidate =>
    let avg := avgCompatWith m group candidate
    if avg > acc.2 then (some candidate, avg) else acc) (none, -1)

/-- The inner while-loop of form_groups_simple (lines 253-269): keep adding
the best candidate while the group is below the target size and candidates
remain.  The loop runs on explicit fuel; one candidate is removed per
iteration, so fuel = number of candidates reproduces the Python loop
exactly.  (If no candidate scored above -1 the Python loop would spin
forever; with the nonnegative compatibility matrices produced by
create_compatibility_matrix that situation is impossible, as proved below.) -/
def fillGroupF (m : List (List ℚ)) (target : ℕ) :
    ℕ → List ℕ → List ℕ → List ℕ × List ℕ
  | 0, group, cands => (group, cands)
  | fuel + 1, group, cands =>
    if group.length < target ∧ cands ≠ [] then
      match (selectBest m group cands).1 with
      | some c => fillGroupF m target fuel (group ++ [c]) (cands.erase c)
      | none => (group, cands)
    else (group, cands)

def fillGroup (m : List (List ℚ)) (target : ℕ) (group cands : List ℕ) :
    List ℕ × List ℕ :=
  fillGroupF m target cands.length group cands

/-- The outer while-loop of form_groups_simple (lines 240-289), on student
indices.  pick supplies the random.choice draws (the seed of group number
step is ungrouped[pick step mod len]).  Groups are accumulated in order;
the per-group compatibility_score computed by the Python code does not
affect membership and is not modelled.  Fuel = number of ungrouped students
suffices since every iteration removes at least one student. -/
def formLoopF (m : List (List ℚ)) (target : ℕ) (pick : ℕ → ℕ) :
    ℕ → ℕ → List ℕ → List (List ℕ) → List (List ℕ) × List ℕ
  | 0, _, ungrouped, groups => (groups, ungrouped)
  | fuel + 1, step, ungrouped, groups =>
    if 3 ≤ ungrouped.length then
      if ungrouped.length < target then
        formLoopF m target pick fuel (step + 1) [] (groups ++ [ungrouped])
      else
        let seed := ungrouped.getD (pick step % ungrouped.length) 0
        let res := fillGroup m target [seed] (ungrouped.erase seed)
        formLoopF m target pick fuel (step + 1) res.2 (groups ++ [res.1])
    else (groups, ungrouped)

/-- Python min(groups, key=len): index of the first group of minimal
length. -/
def smallestIdx (gs : List (List ℕ)) : ℕ :=
  (List.range gs.length).foldl
    (fun best j => if (gs.getD j []).length < (gs.getD best []).length then j else best) 0

/-- MatcherAgent.form_groups_simple (matcher_agent.py lines 225-301), on
student indices.  min_group_size is 3.  Leftover students (fewer than 3
remain) are appended to the smallest group; when no group exists the Python
min raises ValueError, modelled as the error case. -/
def form_groups_simple (students : List Student) (target : ℕ) (pick : ℕ → ℕ) :
    Except Unit (List (List ℕ)) :=
  let m := create_compatibility_matrix students
  let res := formLoopF m target pick students.length 0 (List.range students.length) []
  let groups := res.1
  let leftover := res.2
  if leftover = [] then .ok groups
  else
    match groups with
    | [] => .error ()
    | _ :: _ =>
      .ok (groups.set (smallestIdx groups) ((groups.getD (smallestIdx groups) []) ++ leftover))

/-- MatcherAgent.run (matcher_agent.py lines 345-393), reduced to its
control flow around form_groups_simple: an exception yields False (the
except branch), an empty group list yields False, otherwise the run
proceeds and returns True.  (Database fetch/store steps are outside the
engine.) -/
def matcher_run (students : List Student) (target : ℕ) (pick : ℕ → ℕ) : Bool :=
  match form_groups_simple students target pick with
  | .error _ => false
  | .ok groups => !groups.isEmpty

theorem selectBest_mem (m : List (List ℚ)) (group : List ℕ) (c : ℕ) :
    ∀ (cands : List ℕ) (acc : Option ℕ × ℚ),
      (cands.foldl (fun acc candidate =>
        let avg := avgCompatWith m group candidate
        if avg > acc.2 then (some candidate, avg) else acc) acc).1 = some c →
      acc.1 = some c ∨ c ∈ cands := by
  intro cands
  induction cands with
  | nil => intro acc h; exact Or.inl h
  | cons x xs ih =>
    intro acc h
    rw [List.foldl_cons] at h
    rcases ih _ h with h' | h'
    · by_cases hgt : avgCompatWith m group x > acc.2
      · simp only [hgt, if_pos] at h'
        injection h' with h''
        exact Or.inr (h'' ▸ List.mem_cons_self x xs)
      · simp only [hgt, if_neg, if_false] at h'
        exact Or.inl h'
    · exact Or.inr (List.mem_cons_of_mem x h')

theorem selectBest_fst_mem (m : List (List ℚ)) (group cands : List ℕ) (c : ℕ)
    (h : (selectBest m group cands).1 = some c) : c ∈ cands := by
  rcases selectBest_mem m group c cands (none, -1) h with h' | h'
  · exact Option.noConfusion h'
  · exact h'

theorem avgCompatWith_nonneg (m : List (List ℚ)) (group : List ℕ) (c : ℕ)
    (hm : ∀ i j, 0 ≤ matrixGet m i j) : 0 ≤ avgCompatWith m group c := by
  unfold avgCompatWith
  apply div_nonneg
  · apply List.sum_nonneg
    intro x hx
    obtain ⟨member, _, hrw⟩ := List.mem_map.mp hx
    exact hrw ▸ hm c member
  · exact_mod_cast Nat.zero_le _

theorem selectBest_isSome_aux (m : List (List ℚ)) (group : List ℕ) :
    ∀ (cands : List ℕ) (acc : Option ℕ × ℚ), acc.1.isSome →
      ((cands.foldl (fun acc candidate =>
        let avg := avgCompatWith m group candidate
        if avg > acc.2 then (some candidate, avg) else acc) acc).1).isSome := by
  intro cands
  induction cands with
  | nil => intro acc h; exact h
  | cons x xs ih =>
    intro acc h
    rw [List.foldl_cons]
    apply ih
    by_cases hgt : avgCompatWith m group x > acc.2
    · simp [hgt]
    · simpa [hgt]

theorem selectBest_isSome (m : List (List ℚ)) (group cands : List ℕ)
    (hm : ∀ i j, 0 ≤ matrixGet m i j) (hne : cands ≠ []) :
    ((selectBest m group cands).1).isSome := by
  rcases cands with _ | ⟨x, xs⟩
  · exact absurd rfl hne
  · unfold selectBest
    rw [List.foldl_cons]
    apply selectBest_isSome_aux
    have h0 : avgCompatWith m group x > (-1 : ℚ) :=
      lt_of_lt_of_le (by norm_num) (avgCompatWith_nonneg m group x hm)
    simp [h0]

theorem fillGroupF_perm (m : List (List ℚ)) (target : ℕ) :
    ∀ (fuel : ℕ) (group cands : List ℕ),
      ((fillGroupF m target fuel group cands).1 ++
        (fillGroupF m target fuel group cands).2).Perm (group ++ cands) := by
  intro fuel
  induction fuel with
  | zero => intro group cands; exact List.Perm.refl _
  | succ fuel ih =>
    intro group cands
    rw [fillGroupF]
    by_cases hc : group.length < target ∧ cands ≠ []
    · rw [if_pos hc]
      cases hsel : (selectBest m group cands).1 with
      | none => exact List.Perm.refl _
      | some c =>
        have hmem : c ∈ cands := selectBest_fst_mem m group cands c hsel
        refine (ih (group ++ [c]) (cands.erase c)).trans ?_
        rw [List.append_assoc]
        exact List.Perm.append_left group (List.perm_cons_erase hmem).symm
    · rw [if_neg hc]

theorem fillGroupF_fst_length (m : List (List ℚ)) (target : ℕ)
    (hm : ∀ i j, 0 ≤ matrixGet m i j) :
    ∀ (fuel : ℕ) (group cands : List ℕ),
      cands.length ≤ fuel → group.length ≤ target →
      target ≤ group.length + cands.length →
      (fillGroupF m target fuel group cands).1.length = target := by
  intro fuel
  induction fuel with
  | zero =>
    intro group cands hf hg ht
    have hc0 : cands.length = 0 := Nat.le_zero.mp hf
    have hgt : group.length = target := by omega
    simpa [fillGroupF]
  | succ fuel ih =>
    intro group cands hf hg ht
    rw [fillGroupF]
    by_cases hlt : group.length < target
    · have hcne : cands ≠ [] := by
        intro hcnil
        subst hcnil
        simp at ht
        omega
      rw [if_pos ⟨hlt, hcne⟩]
      have hsome := selectBest_isSome m group cands hm hcne
      cases hsel : (selectBest m group cands).1 with
      | none =>
        rw [hsel] at hsome
        exact absurd hsome (by simp)
      | some c =>
        have hmem : c ∈ cands := selectBest_fst_mem m group cands c hsel
        have herase : (cands.erase c).length = cands.length - 1 :=
          List.length_erase_of_mem hmem
        have hcpos : 0 < cands.length := List.length_pos.mpr hcne
        apply ih
        · omega
        · simp only [List.length_append, List.length_singleton]
          omega
        · simp only [List.length_append, List.length_singleton, herase]
          omega
    · have hge : target ≤ group.length := Nat.not_lt.mp hlt
      have heq : group.length = target := Nat.le_antisymm hg hge
      rw [if_neg (by intro hcontra; exact hlt hcontra.1)]
      exact heq

theorem formLoopF_spec (m : List (List ℚ)) (target : ℕ) (pick : ℕ → ℕ)
    (hm : ∀ i j, 0 ≤ matrixGet m i j) (htarget : 3 ≤ target) :
    ∀ (fuel step : ℕ) (ungrouped : List ℕ) (groups : List (List ℕ)),
      ungrouped.length ≤ fuel →
      (∀ g ∈ groups, 3 ≤ g.length) →
      (∀ g ∈ (formLoopF m target pick fuel step ungrouped groups).1, 3 ≤ g.length) ∧
      ((formLoopF m target pick fuel step ungrouped groups).1.flatten ++
        (formLoopF m target pick fuel step ungrouped groups).2).Perm
        (groups.flatten ++ ungrouped) ∧
      (formLoopF m target pick fuel step ungrouped groups).2.length < 3 ∧
      ((groups ≠ [] ∨ 3 ≤ ungrouped.length) →
        (formLoopF m target pick fuel step ungrouped groups).1 ≠ []) := by
  intro fuel
  induction fuel with
  | zero =>
    intro step ungrouped groups hfuel hgroups
    have hnil : ungrouped = [] := List.length_eq_zero.mp (Nat.le_zero.mp hfuel)
    subst hnil
    simp only [formLoopF]
    refine ⟨hgroups, List.Perm.refl _, by simp, ?_⟩
    intro hne
    rcases hne with hne | hne
    · exact hne
    · simp at hne
  | succ fuel ih =>
    intro step ungrouped groups hfuel hgroups
    rw [formLoopF]
    by_cases h3 : 3 ≤ ungrouped.length
    · rw [if_pos h3]
      by_cases hlt : ungrouped.length < target
      · rw [if_pos hlt]
        have hgroups' : ∀ g ∈ groups ++ [ungrouped], 3 ≤ g.length := by
          intro g hg
          rcases List.mem_append.mp hg with hg | hg
          · exact hgroups g hg
          · rw [List.mem_singleton.mp hg]
            exact h3
        obtain ⟨ha, hb, hc, hd⟩ := ih (step + 1) [] (groups ++ [ungrouped]) (by simp) hgroups'
        refine ⟨ha, ?_, hc, fun _ => hd (Or.inl (by simp))⟩
        refine hb.trans ?_
        simp [List.flatten_append]
      · rw [if_neg hlt]
        dsimp only
        have hlen0 : 0 < ungrouped.length := by omega
        have hidx : pick step % ungrouped.length < ungrouped.length :=
          Nat.mod_lt _ hlen0
        have hseedmem : ungrouped.getD (pick step % ungrouped.length) 0 ∈ ungrouped := by
          rw [List.getD_eq_getElem _ _ hidx]
          exact List.getElem_mem hidx
        set seed := ungrouped.getD (pick step % ungrouped.length) 0 with hseed
        set res := fillGroup m target [seed] (ungrouped.erase seed) with hres
        have herase : (ungrouped.erase seed).length = ungrouped.length - 1 :=
          List.length_erase_of_mem hseedmem
        have hfperm : (res.1 ++ res.2).Perm ([seed] ++ ungrouped.erase seed) :=
          fillGroupF_perm m target _ _ _
        have hu_perm : (res.1 ++ res.2).Perm ungrouped :=
          hfperm.trans (List.perm_cons_erase hseedmem).symm
        have hflen : res.1.length = target := by
          apply fillGroupF_fst_length m target hm
          · exact le_refl _
          · simp only [List.length_singleton]
            omega
          · rw [List.length_singleton, herase]
            omega
        have hlensum : res.1.length + res.2.length = ungrouped.length := by
          have hl := hu_perm.length_eq
          rw [List.length_append] at hl
          exact hl
        have hr_le : res.2.length ≤ fuel := by omega
        have hgroups' : ∀ g ∈ groups ++ [res.1], 3 ≤ g.length := by
          intro g hg
          rcases List.mem_append.mp hg with hg | hg
          · exact hgroups g hg
          · rw [List.mem_singleton.mp hg, hflen]
            exact htarget
        obtain ⟨ha, hb, hc, hd⟩ := ih (step + 1) res.2 (groups ++ [res.1]) hr_le hgroups'
        refine ⟨ha, ?_, hc, fun _ => hd (Or.inl (by simp))⟩
        refine hb.trans ?_
        rw [List.flatten_append]
        simp only [List.flatten_cons, List.flatten_nil, List.append_nil]
        rw [List.append_assoc]
        exact List.Perm.append_left _ hu_perm
    · rw [if_neg h3]
      refine ⟨hgroups, List.Perm.refl _, Nat.lt_of_not_le h3, ?_⟩
      intro hne
      rcases hne with hne | hne
      · exact hne
      · exact absurd hne h3

theorem flatten_set_perm :
    ∀ (gs : List (List ℕ)) (i : ℕ), i < gs.length → ∀ (extra : List ℕ),
      ((gs.set i ((gs.getD i []) ++ extra)).flatten).Perm (gs.flatten ++ extra) := by
  intro gs
  induction gs with
  | nil =>
    intro i hi extra
    simp at hi
  | cons g rest ih =>
    intro i hi extra
    cases i with
    | zero =>
      simp only [List.set_cons_zero, List.getD_cons_zero, List.flatten_cons, List.append_assoc]
      exact List.Perm.append_left g List.perm_append_comm
    | succ i =>
      simp only [List.set_cons_succ, List.getD_cons_succ, List.flatten_cons, List.append_assoc]
      exact List.Perm.append_left g (ih i (by simpa using hi) extra)

theorem smallestIdx_aux_lt (gs : List (List ℕ)) :
    ∀ (l : List ℕ) (acc : ℕ), acc < gs.length → (∀ j ∈ l, j < gs.length) →
      (l.foldl (fun best j =>
        if (gs.getD j []).length < (gs.getD best []).length then j else best) acc) <
        gs.length := by
  intro l
  induction l with
  | nil => intro acc h _; exact h
  | cons x xs ih =>
    intro acc h hall
    rw [List.foldl_cons]
    apply ih
    · by_cases hx : (gs.getD x []).length < (gs.getD acc []).length
      · rw [if_pos hx]
        exact hall x (List.mem_cons_self x xs)
      · rw [if_neg hx]
        exact h
    · intro j hj
      exact hall j (List.mem_cons_of_mem x hj)

theorem smallestIdx_lt (gs : List (List ℕ)) (h : gs ≠ []) :
    smallestIdx gs < gs.length := by
  unfold smallestIdx
  apply smallestIdx_aux_lt
  · exact List.length_pos.mpr h
  · intro j hj
    exact List.mem_range.mp hj

theorem getD_map_range {α : Type} (f : ℕ → α) (n i : ℕ) (d : α) :
    ((List.range n).map f).getD i d = if i < n then f i else d := by
  by_cases hi : i < n
  · rw [if_pos hi, List.getD_eq_getElem _ _ (by simpa using hi), List.getElem_map,
        List.getElem_range]
  · rw [if_neg hi, List.getD_eq_default _ _ (by simpa using Nat.not_lt.mp hi)]

theorem create_matrix_get (students : List Student) (i j : ℕ) :
    matrixGet (create_compatibility_matrix students) i j =
      if i < students.length then
        (if j < students.length then
          (if i < j then
            calculate_compatibility (students.getD i default) (students.getD j default)
           else if j < i then
            calculate_compatibility (students.getD j default) (students.getD i default)
           else 0)
         else 0)
      else 0 := by
  have h1 : create_compatibility_matrix students =
      (List.range students.length).map (fun i => (List.range students.length).map (fun j =>
        if i < j then calculate_compatibility (students.getD i default) (students.getD j default)
        else if j < i then calculate_compatibility (students.getD j default) (students.getD i default)
        else 0)) := rfl
  unfold matrixGet
  rw [h1, getD_map_range]
  by_cases hi : i < students.length
  · rw [if_pos hi, if_pos hi, getD_map_range]
  · rw [if_neg hi, if_neg hi]
    rfl

theorem getD_mem_of_lt (students : List Student) (i : ℕ) (hi : i < students.length) :
    students.getD i default ∈ students := by
  rw [List.getD_eq_getElem _ _ hi]
  exact List.getElem_mem hi

theorem create_matrix_nonneg (students : List Student)
    (hv : ∀ s ∈ students, validStudent s) :
    ∀ i j, 0 ≤ matrixGet (create_compatibility_matrix students) i j := by
  intro i j
  rw [create_matrix_get]
  by_cases hi : i < students.length
  · rw [if_pos hi]
    by_cases hj : j < students.length
    · rw [if_pos hj]
      have hvi := hv _ (getD_mem_of_lt students i hi)
      have hvj := hv _ (getD_mem_of_lt students j hj)
      by_cases hij : i < j
      · rw [if_pos hij]
        exact (compatibility_bounds _ _ hvi hvj).1
      · rw [if_neg hij]
        by_cases hji : j < i
        · rw [if_pos hji]
          exact (compatibility_bounds _ _ hvj hvi).1
        · rw [if_neg hji]
    · rw [if_neg hj]
  · rw [if_neg hi]

/-- C2: for every population of at least min_group_size (3) students of the
data model and every target group size of at least 3, form_groups_simple
succeeds (for any stream of random.choice seed draws) and its groups
partition the population: every group has at least 3 members and every
student index appears exactly once. -/
theorem c2_form_groups_simple_partition (students : List Student) (target : ℕ)
    (pick : ℕ → ℕ) (hpop : 3 ≤ students.length) (htarget : 3 ≤ target)
    (hv : ∀ s ∈ students, validStudent s) :
    ∃ gs, form_groups_simple students target pick = .ok gs ∧
      (∀ g ∈ gs, 3 ≤ g.length) ∧ gs.flatten.Perm (List.range students.length) := by
  have hm := create_matrix_nonneg students hv
  obtain ⟨ha, hb, hc, hd⟩ := formLoopF_spec (create_compatibility_matrix students)
    target pick hm htarget students.length 0 (List.range students.length) []
    (by simp) (by simp)
  unfold form_groups_simple
  dsimp only
  set res := formLoopF (create_compatibility_matrix students) target pick
    students.length 0 (List.range students.length) [] with hres
  simp only [List.flatten_nil, List.nil_append] at hb
  by_cases hleft : res.2 = []
  · rw [if_pos hleft]
    refine ⟨res.1, rfl, ha, ?_⟩
    rw [hleft, List.append_nil] at hb
    exact hb
  · rw [if_neg hleft]
    have hne : res.1 ≠ [] := hd (Or.inr (by simpa using hpop))
    rcases hres1 : res.1 with _ | ⟨g0, grest⟩
    · exact absurd hres1 hne
    · have hlt : smallestIdx (g0 :: grest) < (g0 :: grest).length :=
        smallestIdx_lt _ (by simp)
      refine ⟨_, rfl, ?_, ?_⟩
      · intro g hg
        rcases List.mem_or_eq_of_mem_set hg with hg | hg
        · exact ha g (hres1 ▸ hg)
        · have hmem : (g0 :: grest).getD (smallestIdx (g0 :: grest)) [] ∈ (g0 :: grest) := by
            rw [List.getD_eq_getElem _ _ hlt]
            exact List.getElem_mem hlt
          have h3 : 3 ≤ ((g0 :: grest).getD (smallestIdx (g0 :: grest)) []).length :=
            ha _ (hres1 ▸ hmem)
          rw [hg, List.length_append]
          omega
      · refine (flatten_set_perm (g0 :: grest) _ hlt res.2).trans ?_
        rw [← hres1]
        exact hb

theorem formLoopF_small (m : List (List ℚ)) (target : ℕ) (pick : ℕ → ℕ)
    (fuel step : ℕ) (ungrouped : List ℕ) (h : ungrouped.length < 3) :
    formLoopF m target pick fuel step ungrouped [] = ([], ungrouped) := by
  cases fuel with
  | zero => rfl
  | succ fuel => rw [formLoopF, if_neg (by omega)]

/-- C7: with fewer than min_group_size (3) students, group formation cannot
proceed: form_groups_simple never returns a nonempty grouping (it returns
the empty list for an empty population and raises, modelled as .error, for
one or two students), and MatcherAgent.run reports failure (False) to its
caller. -/
theorem c7_insufficient_population (students : List Student) (target : ℕ)
    (pick : ℕ → ℕ) (hpop : students.length < 3) :
    matcher_run students target pick = false ∧
    (∀ gs, form_groups_simple students target pick = .ok gs → gs = []) := by
  have hloop := formLoopF_small (create_compatibility_matrix students) target pick
    students.length 0 (List.range students.length) (by simpa using hpop)
  have hform : form_groups_simple students target pick =
      (if List.range students.length = [] then Except.ok [] else Except.error ()) := by
    unfold form_groups_simple
    dsimp only
    rw [hloop]
  constructor
  · unfold matcher_run
    rw [hform]
    by_cases hr : List.range students.length = []
    · rw [if_pos hr]
      rfl
    · rw [if_neg hr]
  · intro gs hgs
    rw [hform] at hgs
    by_cases hr : List.range students.length = []
    · rw [if_pos hr] at hgs
      injection hgs with h
      exact h.symm
    · rw [if_neg hr] at hgs
      exact Except.noConfusion hgs

def students3 : List Student := List.replicate 3 studentB

/-- Witness for C2 at a concrete 3-student population, target size 3. -/
theorem c2_witness :
    (3 ≤ students3.length ∧ (3:ℕ) ≤ 3 ∧ ∀ s ∈ students3, validStudent s) ∧
    ∃ gs, form_groups_simple students3 3 (fun _ => 0) = .ok gs ∧
      (∀ g ∈ gs, 3 ≤ g.length) ∧ gs.flatten.Perm (List.range students3.length) := by
  have hv : ∀ s ∈ students3, validStudent s := by
    intro s hs
    rw [List.eq_of_mem_replicate hs]
    intro t ht
    exact Option.noConfusion ht
  have hlen : 3 ≤ students3.length := by simp [students3]
  exact ⟨⟨hlen, le_refl 3, hv⟩,
    c2_form_groups_simple_partition students3 3 (fun _ => 0) hlen (le_refl 3) hv⟩

def students2 : List Student := List.replicate 2 studentB

/-- Witness for C7 at a concrete 2-student population. -/
theorem c7_witness :
    students2.length < 3 ∧
    matcher_run students2 4 (fun _ => 0) = false ∧
    (∀ gs, form_groups_simple students2 4 (fun _ => 0) = .ok gs → gs = []) := by
  have h : students2.length < 3 := by simp [students2]
  exact ⟨h, c7_insufficient_population students2 4 (fun _ => 0) h⟩

/-! ### Coordinator agent: skill matching and task allocation -/

/-- A group member as fetched by CoordinatorAgent.fetch_groups: only the
skills rows matter to calculate_skill_match and allocate_tasks. -/
structure Member where
  skills : List Skill

/-- A task row of allocate_tasks after parsing required_skills (lines
206-210: the comma-separated column is split into a list; an empty or NULL
column gives the empty list). -/
structure Task where
  task_name : String
  required_skills : List String
  complexity_level : String
  estimated_hours : ℚ

/-- The proficiency-tier weights of calculate_skill_match (coordinator_agent.py
lines 171-179); any other tier contributes nothing. -/
def profWeight (proficiency : String) : ℚ :=
  if proficiency = "Expert" then 1
  else if proficiency = "Advanced" then 4/5
  else if proficiency = "Intermediate" then 3/5
  else if proficiency = "Beginner" then 3/10
  else 0

/-- The member_skills dict of calculate_skill_match (line 162), a Python
dict comprehension keyed by skill name: for duplicate names the later row
wins. -/
def memberSkillLookup (skills : List Skill) (name : String) : Option Skill :=
  skills.foldl (fun acc s => if s.skill_name = name then some s else acc) none

/-- CoordinatorAgent.calculate_skill_match (coordinator_agent.py lines
153-183).  required is a Python set (the distinct required skills); the sum
iterates over it; the result is divided by the size of the set, capped at 1. -/
def calculate_skill_match (member : Member) (task : Task) : ℚ :=
  if task.required_skills = [] then 1/2
  else
    let required : Finset String := task.required_skills.toFinset
    if member.skills = [] then 1/10
    else
      let match_score := ∑ skill ∈ required,
        (match memberSkillLookup member.skills skill with
         | some s => profWeight s.proficiency_level
         | none => 0)
      let final_score := if required ≠ ∅ then match_score / (required.card : ℚ) else 0
      min final_score 1

/-- The skill-match formula of the claim: the sum, over the distinct
required skills, of the proficiency-tier weight of the member, divided by the
number of distinct required skills, capped at 1. -/
def specSkillMatch (member : Member) (task : Task) : ℚ :=
  min ((task.required_skills.dedup.map (fun skill =>
        match memberSkillLookup member.skills skill with
        | some s => profWeight s.proficiency_level
        | none => 0)).sum / (task.required_skills.dedup.length : ℚ)) 1

def memberNoSkills : Member := ⟨[]⟩

def taskPython : Task := ⟨"Backend API Development", ["Python"], "High", 25⟩

/-- C3 is false as stated for members with empty skill lists: the code
returns 0.1 there (line 165), not the claimed 0. -/
theorem c3_counterexample :
    calculate_skill_match memberNoSkills taskPython = 1/10 ∧ (1/10 : ℚ) ≠ 0 := by
  constructor
  · with_unfolding_all rfl
  · norm_num

/-- C3 amended: calculate_skill_match returns 0.5 when the required-skill
list is empty; 0.1 when the skill list of the member is empty (and skills are
required); otherwise the sum of proficiency-tier weights over the distinct
required skills divided by their number, capped at 1.0 — in particular a
member with a nonempty skill list possessing none of the required skills
scores 0. -/
theorem c3_amended_skill_match (member : Member) (task : Task) :
    (calculate_skill_match member task =
      if task.required_skills = [] then 1/2
      else if member.skills = [] then 1/10
      else specSkillMatch member task) ∧
    (task.required_skills ≠ [] → member.skills ≠ [] →
      (∀ r ∈ task.required_skills, memberSkillLookup member.skills r = none) →
      calculate_skill_match member task = 0) := by
  have hmain : calculate_skill_match member task =
      if task.required_skills = [] then 1/2
      else if member.skills = [] then 1/10
      else specSkillMatch member task := by
    simp only [calculate_skill_match]
    by_cases hreq : task.required_skills = []
    · rw [if_pos hreq, if_pos hreq]
    · rw [if_neg hreq, if_neg hreq]
      by_cases hmem : member.skills = []
      · rw [if_pos hmem, if_pos hmem]
      · rw [if_neg hmem, if_neg hmem]
        have hne : task.required_skills.toFinset ≠ ∅ := by
          rw [Ne, List.toFinset_eq_empty_iff]
          exact hreq
        rw [if_pos hne]
        unfold specSkillMatch
        congr 1
  refine ⟨hmain, ?_⟩
  intro hreq hmem hnone
  rw [hmain, if_neg hreq, if_neg hmem]
  unfold specSkillMatch
  have hz : (task.required_skills.dedup.map (fun skill =>
      match memberSkillLookup member.skills skill with
      | some s => profWeight s.proficiency_level
      | none => 0)).sum = 0 := by
    apply List.sum_eq_zero
    intro x hx
    obtain ⟨r, hr, hrw⟩ := List.mem_map.mp hx
    have : memberSkillLookup member.skills r = none :=
      hnone r (List.mem_dedup.mp hr)
    rw [this] at hrw
    exact hrw.symm
  rw [hz, zero_div]
  exact min_eq_left (by norm_num)

def memberJavaOnly : Member := ⟨[⟨"Java", "Expert", 3⟩]⟩

/-- Witness for C3 (amended): a member with a nonempty skill list matching
none of the required skills scores 0. -/
theorem c3_witness :
    taskPython.required_skills ≠ [] ∧ memberJavaOnly.skills ≠ [] ∧
    (∀ r ∈ taskPython.required_skills, memberSkillLookup memberJavaOnly.skills r = none) ∧
    calculate_skill_match memberJavaOnly taskPython = 0 := by
  have h1 : taskPython.required_skills ≠ [] := by simp [taskPython]
  have h2 : memberJavaOnly.skills ≠ [] := by simp [memberJavaOnly]
  have h3 : ∀ r ∈ taskPython.required_skills, memberSkillLookup memberJavaOnly.skills r = none := by
    intro r hr
    simp only [taskPython, List.mem_singleton] at hr
    subst hr
    with_unfolding_all rfl
  exact ⟨h1, h2, h3, (c3_amended_skill_match memberJavaOnly taskPython).2 h1 h2 h3⟩

/-- The complexity_order dict of allocate_tasks (coordinator_agent.py line
219); dict.get with default 0 for unknown tiers. -/
def complexityOrder (c : String) : ℕ :=
  if c = "High" then 3 else if c = "Medium" then 2 else if c = "Low" then 1 else 0

/-- Stable insertion for a complexity-descending sort: a task moves past
exactly the tasks of strictly higher tier value, so equal-tier tasks keep
their input order.  Python sorted(key, reverse=True) (line 220) is a stable
descending sort and computes exactly this list. -/
def insertTaskDesc (t : Task) : List Task → List Task
  | [] => [t]
  | u :: us =>
    if complexityOrder t.complexity_level < complexityOrder u.complexity_level then
      u :: insertTaskDesc t us
    else t :: u :: us

/-- tasks_sorted of allocate_tasks (lines 220-222): the stable
complexity-descending sort of the pending tasks. -/
def sortTasksByComplexity : List Task → List Task
  | [] => []
  | t :: ts => insertTaskDesc t (sortTasksByComplexity ts)

/-- Candidate selection of allocate_tasks (lines 229-248): score every
member by 0.7 * skill_match + 0.3 * workload_factor and take the maximum;
Python max keeps the first of equally scored members.  (For an empty member
list Python max would raise; the model returns index 0, a case excluded by
the theorems.) -/
def bestCandidateIdx (members : List Member) (hoursL : List ℚ) (t : Task) : ℕ :=
  let avg := hoursL.sum / (members.length : ℚ)
  let score := fun i =>
    calculate_skill_match (members.getD i ⟨[]⟩) t * (7/10) +
    (1 - (hoursL.getD i 0) / (avg + 1/10)) * (3/10)
  match List.range members.length with
  | [] => 0
  | i0 :: rest => rest.foldl (fun best i => if score best < score i then i else best) i0

/-- The per-task assignment loop of allocate_tasks (lines 227-277), on the
already sorted task list: assign each task to the best candidate and add
its estimated hours to the running workload of that member.  Returns the
(member index, task) assignments in assignment order; the database writes
performed by the Python code are the output sink of the caller. -/
def allocLoop (members : List Member) : List Task → List ℚ → List (ℕ × Task)
  | [], _ => []
  | t :: ts, hoursL =>
    let i := bestCandidateIdx members hoursL t
    (i, t) :: allocLoop members ts (hoursL.set i (hoursL.getD i 0 + t.estimated_hours))

/-- CoordinatorAgent.allocate_tasks (coordinator_agent.py lines 185-293),
pure allocation core: initialize the assigned_hours of every member to 0, sort
the pending tasks by complexity tier descending (stable), then assign them
greedily. -/
def allocate_tasks (members : List Member) (tasks : List Task) : List (ℕ × Task) :=
  allocLoop members (sortTasksByComplexity tasks) (List.replicate members.length 0)

theorem allocLoop_map_snd (members : List Member) :
    ∀ (ts : List Task) (hoursL : List ℚ),
      (allocLoop members ts hoursL).map Prod.snd = ts := by
  intro ts
  induction ts with
  | nil => intro hoursL; rfl
  | cons t ts ih =>
    intro hoursL
    simp only [allocLoop, List.map_cons]
    rw [ih]

theorem mem_insertTaskDesc (t x : Task) :
    ∀ l, x ∈ insertTaskDesc t l → x = t ∨ x ∈ l := by
  intro l
  induction l with
  | nil =>
    intro h
    simp only [insertTaskDesc, List.mem_singleton] at h
    exact Or.inl h
  | cons u us ih =>
    intro h
    simp only [insertTaskDesc] at h
    by_cases hc : complexityOrder t.complexity_level < complexityOrder u.complexity_level
    · rw [if_pos hc] at h
      rcases List.mem_cons.mp h with h | h
      · exact Or.inr (h ▸ List.mem_cons_self u us)
      · rcases ih h with h | h
        · exact Or.inl h
        · exact Or.inr (List.mem_cons_of_mem u h)
    · rw [if_neg hc] at h
      rcases List.mem_cons.mp h with h | h
      · exact Or.inl h
      · exact Or.inr h

theorem pairwise_insertTaskDesc (t : Task) (l : List Task)
    (hl : l.Pairwise (fun a b =>
      complexityOrder b.complexity_level ≤ complexityOrder a.complexity_level)) :
    (insertTaskDesc t l).Pairwise (fun a b =>
      complexityOrder b.complexity_level ≤ complexityOrder a.complexity_level) := by
  induction l with
  | nil => simp [insertTaskDesc]
  | cons u us ih =>
    rw [List.pairwise_cons] at hl
    obtain ⟨hu, hus⟩ := hl
    simp only [insertTaskDesc]
    by_cases hc : complexityOrder t.complexity_level < complexityOrder u.complexity_level
    · rw [if_pos hc, List.pairwise_cons]
      constructor
      · intro x hx
        rcases mem_insertTaskDesc t x us hx with h | h
        · rw [h]
          omega
        · exact hu x h
      · exact ih hus
    · rw [if_neg hc, List.pairwise_cons]
      constructor
      · intro x hx
        rcases List.mem_cons.mp hx with h | h
        · rw [h]
          omega
        · have := hu x h
          omega
      · exact List.Pairwise.cons hu hus

theorem pairwise_sortTasks (ts : List Task) :
    (sortTasksByComplexity ts).Pairwise (fun a b =>
      complexityOrder b.complexity_level ≤ complexityOrder a.complexity_level) := by
  induction ts with
  | nil => simp [sortTasksByComplexity]
  | cons t ts ih => exact pairwise_insertTaskDesc t _ ih

theorem filter_insertTaskDesc (p : Task → Bool)
    (hp : ∀ x y, p x = true → p y = true →
      complexityOrder x.complexity_level = complexityOrder y.complexity_level)
    (t : Task) :
    ∀ l, (insertTaskDesc t l).filter p =
      if p t then t :: l.filter p else l.filter p := by
  intro l
  induction l with
  | nil =>
    by_cases hpt : p t = true <;> simp [insertTaskDesc, hpt]
  | cons u us ih =>
    simp only [insertTaskDesc]
    by_cases hc : complexityOrder t.complexity_level < complexityOrder u.complexity_level
    · rw [if_pos hc, List.filter_cons]
      by_cases hpt : p t = true
      · have hpu : ¬ (p u = true) := by
          intro hpu
          have := hp t u hpt hpu
          omega
        rw [if_neg (by simpa using hpu), ih, if_pos hpt, if_pos hpt, List.filter_cons,
            if_neg (by simpa using hpu)]
      · rw [ih, if_neg hpt, if_neg hpt, List.filter_cons]
    · rw [if_neg hc, List.filter_cons]

theorem filter_sortTasks (p : Task → Bool)
    (hp : ∀ x y, p x = true → p y = true →
      complexityOrder x.complexity_level = complexityOrder y.complexity_level) :
    ∀ ts, (sortTasksByComplexity ts).filter p = ts.filter p := by
  intro ts
  induction ts with
  | nil => rfl
  | cons t ts ih =>
    simp only [sortTasksByComplexity]
    rw [filter_insertTaskDesc p hp, ih, List.filter_cons]

/-- C6: allocate_tasks assigns work items in complexity-descending order:
the sequence of assigned tasks is exactly the stable descending sort of
the pending list, so every High-tier item precedes every Medium-tier item
and every Medium precedes every Low (the tier values never increase along
the assignment order), and items of equal tier keep their input order. -/
theorem c6_allocate_descending_stable (members : List Member) (tasks : List Task)
    (_hm : members ≠ []) :
    ((allocate_tasks members tasks).map Prod.snd = sortTasksByComplexity tasks) ∧
    ((allocate_tasks members tasks).map Prod.snd).Pairwise (fun a b =>
      complexityOrder b.complexity_level ≤ complexityOrder a.complexity_level) ∧
    (∀ c : String, ((allocate_tasks members tasks).map Prod.snd).filter
        (fun t => t.complexity_level == c) =
      tasks.filter (fun t => t.complexity_level == c)) := by
  have horder : (allocate_tasks members tasks).map Prod.snd = sortTasksByComplexity tasks :=
    allocLoop_map_snd members _ _
  refine ⟨horder, ?_, ?_⟩
  · rw [horder]
    exact pairwise_sortTasks tasks
  · intro c
    rw [horder]
    apply filter_sortTasks
    intro x y hx hy
    have hx1 : x.complexity_level = c := by simpa using hx
    have hy1 : y.complexity_level = c := by simpa using hy
    rw [hx1, hy1]

def membersOne : List Member := [⟨[]⟩]

def taskDoc : Task := ⟨"Documentation", [], "Low", 10⟩

/-- Witness for C6 at a concrete one-member group with a Low task listed
before a High task. -/
theorem c6_witness :
    membersOne ≠ [] ∧
    (((allocate_tasks membersOne [taskDoc, taskPython]).map Prod.snd =
        sortTasksByComplexity [taskDoc, taskPython]) ∧
      ((allocate_tasks membersOne [taskDoc, taskPython]).map Prod.snd).Pairwise (fun a b =>
        complexityOrder b.complexity_level ≤ complexityOrder a.complexity_level) ∧
      (∀ c : String, ((allocate_tasks membersOne [taskDoc, taskPython]).map Prod.snd).filter
          (fun t => t.complexity_level == c) =
        [taskDoc, taskPython].filter (fun t => t.complexity_level == c))) := by
  have hm : membersOne ≠ [] := by
    unfold membersOne
    exact List.cons_ne_nil _ _
  exact ⟨hm, c6_allocate_descending_stable membersOne [taskDoc, taskPython] hm⟩

/-! ### Evolutionary formation (MatcherAgentGA) -/

/-- The genome-scanning loop of MatcherAgentGA.decode_individual
(matcher_agent_ga.py lines 189-196): each student index is appended to the
current group; when the gene exceeds 0.5 or the group has reached
max_group_size (5) the group closes, but only if it has reached
min_group_size (3) — otherwise its members roll into the next group. -/
def decodeLoop : List (ℕ × ℚ) → List (List ℕ) → List ℕ → List (List ℕ) × List ℕ
  | [], groups, current => (groups, current)
  | (i, gene) :: rest, groups, current =>
    let current1 := current ++ [i]
    if gene > 1/2 ∨ 5 ≤ current1.length then
      if 3 ≤ current1.length then decodeLoop rest (groups ++ [current1]) []
      else decodeLoop rest groups current1
    else decodeLoop rest groups current1

/-- MatcherAgentGA.decode_individual (matcher_agent_ga.py lines 181-207):
scan the genome (the loop indexes come from enumerate(individual)), then
handle the dangling current group: append it if it reached min_group_size,
else merge it into the smallest emitted group when one exists; when no
group was emitted the remaining members are dropped (the if/elif at lines
200-205 has no else branch). -/
def decode_individual (individual : List ℚ) : List (List ℕ) :=
  let res := decodeLoop individual.enum [] []
  let groups := res.1
  let current := res.2
  if current ≠ [] then
    if 3 ≤ current.length then groups ++ [current]
    else
      match groups with
      | [] => groups
      | _ :: _ =>
        groups.set (smallestIdx groups) ((groups.getD (smallestIdx groups) []) ++ current)
  else groups

/-- The intra-group pair loop of evaluate_grouping (lines 164-169): sum of
matrix[g[i]][g[j]] over index pairs i < j. -/
def pairSum (m : List (List ℚ)) : List ℕ → ℚ
  | [] => 0
  | x :: xs => (xs.map (fun y => matrixGet m x y)).sum + pairSum m xs

/-- The pair count of the same loop: n choose 2. -/
def pairCount (n : ℕ) : ℕ := n * (n - 1) / 2

/-- MatcherAgentGA.evaluate_grouping (lines 149-179): fitness = sum over
decoded groups of mean intra-group pair score, plus 0.1 per group exactly
at the target size, minus 100 per group outside [min_group_size,
max_group_size] = [3, 5]. -/
def evaluate_grouping (m : List (List ℚ)) (target : ℕ) (individual : List ℚ) : ℚ :=
  let groups := decode_individual individual
  let fit := fun (g : List ℕ) =>
    (if 0 < pairCount g.length then pairSum m g / (pairCount g.length : ℚ) else 0) +
    (if g.length = target then 1/10 else 0)
  let penalty := fun (g : List ℕ) => if g.length < 3 ∨ 5 < g.length then (100:ℚ) else 0
  (groups.map fit).sum - (groups.map penalty).sum

/-- MatcherAgentGA.create_compatibility_matrix (lines 132-147): identical
construction to the simple agent (np.zeros gives the zero diagonal) but
with the GA compatibility model. -/
def ga_create_compatibility_matrix (students : List Student) : List (List ℚ) :=
  let n := students.length
  (List.range n).map (fun i => (List.range n).map (fun j =>
    if i < j then ga_calculate_compatibility (students.getD i default) (students.getD j default)
    else if j < i then ga_calculate_compatibility (students.getD j default) (students.getD i default)
    else 0))

/-- Advance the random stream by k draws. -/
def shiftS (k : ℕ) (S : ℕ → ℚ) : ℕ → ℚ := fun n => S (n + k)

/-- random.choice over a list of length len, from one draw in [0,1):
index floor(draw * len). -/
def randIndex (q : ℚ) (len : ℕ) : ℕ := (⌊q * (len : ℚ)⌋).toNat

/-- random.randint(1, n) from one draw: 1 + floor(draw * n). -/
def randInt1 (q : ℚ) (n : ℕ) : ℕ := 1 + (⌊q * (n : ℚ)⌋).toNat

/-- toolbox.attr_float / initRepeat (form_groups_ga lines 221-223): an
individual is len(students) draws of random.random. -/
def initIndividual (n : ℕ) (S : ℕ → ℚ) : List ℚ := (List.range n).map S

/-- toolbox.population (line 232): p individuals of n genes, consuming
p * n draws. -/
def initPopulation (p n : ℕ) (S : ℕ → ℚ) : List (List ℚ) :=
  (List.range p).map (fun i => initIndividual n (shiftS (i * n) S))

/-- One tournament of DEAP selTournament with tournsize 3 (line 229):
three random aspirants (one index draw each); the winner is the first
aspirant of maximal fitness (Python max keeps the first). -/
def tournament (fit : List ℚ → ℚ) (pop : List (List ℚ)) (S : ℕ → ℚ) : List ℚ :=
  let a1 := pop.getD (randIndex (S 0) pop.length) []
  let a2 := pop.getD (randIndex (S 1) pop.length) []
  let a3 := pop.getD (randIndex (S 2) pop.length) []
  [a2, a3].foldl (fun best a => if fit best < fit a then a else best) a1

/-- toolbox.select (line 243): k independent tournaments, 3 draws each. -/
def selTournament (fit : List ℚ → ℚ) (pop : List (List ℚ)) (k : ℕ) (S : ℕ → ℚ) :
    List (List ℚ) :=
  (List.range k).map (fun i => tournament fit pop (shiftS (3 * i) S))

/-- DEAP cxTwoPoint (line 227): cxpoint1 = randint(1, size), cxpoint2 =
randint(1, size-1), ordered, then the slice between them is exchanged. -/
def cxTwoPoint (g1 g2 : List ℚ) (S : ℕ → ℚ) : List ℚ × List ℚ :=
  let size := min g1.length g2.length
  let p1 := randInt1 (S 0) size
  let p2 := randInt1 (S 1) (size - 1)
  let cx1 := if p1 ≤ p2 then p1 else p2
  let cx2 := if p1 ≤ p2 then p2 + 1 else p1
  (g1.take cx1 ++ ((g2.drop cx1).take (cx2 - cx1)) ++ g1.drop cx2,
   g2.take cx1 ++ ((g1.drop cx1).take (cx2 - cx1)) ++ g2.drop cx2)

/-- The crossover phase (lines 247-251): offspring pairs (0,1), (2,3), ...
mate with probability 0.7; one coin draw per pair, plus the two cut draws
when the coin hits; an odd trailing offspring is untouched.  Also returns
the number of draws consumed. -/
def cxPairs : List (List ℚ) → (ℕ → ℚ) → List (List ℚ) × ℕ
  | g1 :: g2 :: rest, S =>
    if S 0 < 7/10 then
      let pair := cxTwoPoint g1 g2 (shiftS 1 S)
      let res := cxPairs rest (shiftS 3 S)
      (pair.1 :: pair.2 :: res.1, res.2 + 3)
    else
      let res := cxPairs rest (shiftS 1 S)
      (g1 :: g2 :: res.1, res.2 + 1)
  | l, _ => (l, 0)

/-- DEAP mutFlipBit with indpb 0.05 (line 228): one draw per gene; a
hitting gene x becomes float(not x): 1.0 if x = 0, else 0.0. -/
def mutFlipBit (g : List ℚ) (S : ℕ → ℚ) : List ℚ :=
  g.enum.map (fun p => if S p.1 < 1/20 then (if p.2 = 0 then 1 else 0) else p.2)

/-- The mutation phase (lines 253-257): each offspring mutates with
probability 0.2 (one coin draw, plus one draw per gene when the coin
hits). -/
def mutPhase : List (List ℚ) → (ℕ → ℚ) → List (List ℚ) × ℕ
  | [], _ => ([], 0)
  | g :: rest, S =>
    if S 0 < 1/5 then
      let g1 := mutFlipBit g (shiftS 1 S)
      let res := mutPhase rest (shiftS (1 + g.length) S)
      (g1 :: res.1, res.2 + 1 + g.length)
    else
      let res := mutPhase rest (shiftS 1 S)
      (g :: res.1, res.2 + 1)

/-- One generation of form_groups_ga (lines 236-265): fitness evaluation
consumes no randomness and is pure, so the Python fitness-caching
bookkeeping (del fitness.values / re-evaluation of invalid individuals) is
semantically transparent; then tournament selection over len(population)
slots, crossover, mutation. -/
def gaGeneration (fit : List ℚ → ℚ) (pop : List (List ℚ)) (S : ℕ → ℚ) :
    List (List ℚ) × ℕ :=
  let off := selTournament fit pop pop.length S
  let k1 := 3 * pop.length
  let cx := cxPairs off (shiftS k1 S)
  let mu := mutPhase cx.1 (shiftS (k1 + cx.2) S)
  (mu.1, k1 + cx.2 + mu.2)

/-- The fixed-budget generational loop (lines 236-270). -/
def gaLoop (fit : List ℚ → ℚ) : ℕ → List (List ℚ) → (ℕ → ℚ) → List (List ℚ)
  | 0, pop, _ => pop
  | g + 1, pop, S =>
    let res := gaGeneration fit pop S
    gaLoop fit g res.1 (shiftS res.2 S)

/-- tools.selBest(population, 1)[0] (line 273): the first genome of maximal
fitness (DEAP sorts descending with a stable sort, so ties keep the
earlier genome; an empty population would raise in Python and is excluded
by the theorems). -/
def selBest1 (fit : List ℚ → ℚ) : List (List ℚ) → List ℚ
  | [] => []
  | g :: gs => gs.foldl (fun best h => if fit best < fit h then h else best) g

/-- The fitness function of form_groups_ga: evaluate_grouping over the GA
compatibility matrix of the population (line 226). -/
def gaFit (students : List Student) (target : ℕ) : List ℚ → ℚ :=
  evaluate_grouping (ga_create_compatibility_matrix students) target

/-- The initial random population of form_groups_ga (line 232). -/
def gaInitPop (students : List Student) (p : ℕ) (S : ℕ → ℚ) : List (List ℚ) :=
  initPopulation p students.length S

/-- The final population after the generation budget. -/
def gaFinalPop (students : List Student) (target p g : ℕ) (S : ℕ → ℚ) :
    List (List ℚ) :=
  gaLoop (gaFit students target) g (gaInitPop students p S)
    (shiftS (p * students.length) S)

/-- The best genome selected from the final population (line 273). -/
def gaBestGenome (students : List Student) (target p g : ℕ) (S : ℕ → ℚ) : List ℚ :=
  selBest1 (gaFit students target) (gaFinalPop students target p g S)

/-- MatcherAgentGA.form_groups_ga (lines 209-306): decode the best final
genome into groups (population size p = 50 and generations g = 100 in the
constructor).  The per-group score display does not affect membership. -/
def form_groups_ga (students : List Student) (target p g : ℕ) (S : ℕ → ℚ) :
    List (List ℕ) :=
  decode_individual (gaBestGenome students target p g S)

theorem decodeLoop_sizes :
    ∀ (l : List (ℕ × ℚ)) (groups : List (List ℕ)) (current : List ℕ),
      (∀ g ∈ groups, 3 ≤ g.length) →
      ∀ g ∈ (decodeLoop l groups current).1, 3 ≤ g.length := by
  intro l
  induction l with
  | nil => intro groups current h; exact h
  | cons p rest ih =>
    intro groups current h
    obtain ⟨i, gene⟩ := p
    simp only [decodeLoop]
    by_cases h1 : gene > 1/2 ∨ 5 ≤ (current ++ [i]).length
    · rw [if_pos h1]
      by_cases h2 : 3 ≤ (current ++ [i]).length
      · rw [if_pos h2]
        apply ih
        intro g hg
        rcases List.mem_append.mp hg with hg | hg
        · exact h g hg
        · rw [List.mem_singleton.mp hg]
          exact h2
      · rw [if_neg h2]
        exact ih _ _ h
    · rw [if_neg h1]
      exact ih _ _ h

theorem decodeLoop_flatten :
    ∀ (l : List (ℕ × ℚ)) (groups : List (List ℕ)) (current : List ℕ),
      (decodeLoop l groups current).1.flatten ++ (decodeLoop l groups current).2 =
        groups.flatten ++ current ++ l.map Prod.fst := by
  intro l
  induction l with
  | nil =>
    intro groups current
    simp [decodeLoop]
  | cons p rest ih =>
    intro groups current
    obtain ⟨i, gene⟩ := p
    simp only [decodeLoop, List.map_cons]
    by_cases h1 : gene > 1/2 ∨ 5 ≤ (current ++ [i]).length
    · rw [if_pos h1]
      by_cases h2 : 3 ≤ (current ++ [i]).length
      · rw [if_pos h2, ih]
        simp [List.flatten_append, List.append_assoc]
      · rw [if_neg h2, ih]
        simp [List.append_assoc]
    · rw [if_neg h1, ih]
      simp [List.append_assoc]

theorem decodeLoop_groups_nil :
    ∀ (l : List (ℕ × ℚ)) (groups : List (List ℕ)) (current : List ℕ),
      (decodeLoop l groups current).1 = [] →
      groups = [] ∧ (decodeLoop l groups current).2 = current ++ l.map Prod.fst := by
  intro l
  induction l with
  | nil =>
    intro groups current h
    exact ⟨h, by simp [decodeLoop]⟩
  | cons p rest ih =>
    intro groups current h
    obtain ⟨i, gene⟩ := p
    simp only [decodeLoop] at h ⊢
    by_cases h1 : gene > 1/2 ∨ 5 ≤ (current ++ [i]).length
    · rw [if_pos h1] at h ⊢
      by_cases h2 : 3 ≤ (current ++ [i]).length
      · rw [if_pos h2] at h ⊢
        obtain ⟨habs, _⟩ := ih _ _ h
        simp at habs
      · rw [if_neg h2] at h ⊢
        obtain ⟨hg, hc⟩ := ih _ _ h
        exact ⟨hg, by rw [hc]; simp⟩
    · rw [if_neg h1] at h ⊢
      obtain ⟨hg, hc⟩ := ih _ _ h
      exact ⟨hg, by rw [hc]; simp⟩

/-- C10: every group emitted by decode_individual has at least
min_group_size (3) members: undersized material rolls into the next group,
is merged into the smallest emitted group, or is dropped — it never appears
as a group of its own. -/
theorem c10_decode_min_size (individual : List ℚ) :
    ∀ g ∈ decode_individual individual, 3 ≤ g.length := by
  intro g hg
  unfold decode_individual at hg
  dsimp only at hg
  have hsz : ∀ g' ∈ (decodeLoop individual.enum [] []).1, 3 ≤ g'.length :=
    decodeLoop_sizes _ _ _ (by simp)
  by_cases hcur : (decodeLoop individual.enum [] []).2 ≠ []
  · rw [if_pos hcur] at hg
    by_cases h3 : 3 ≤ (decodeLoop individual.enum [] []).2.length
    · rw [if_pos h3] at hg
      rcases List.mem_append.mp hg with hg | hg
      · exact hsz g hg
      · rw [List.mem_singleton.mp hg]
        exact h3
    · rw [if_neg h3] at hg
      rcases hgr : (decodeLoop individual.enum [] []).1 with _ | ⟨g0, grest⟩
      · rw [hgr] at hg
        simp at hg
      · rw [hgr] at hg hsz
        rcases List.mem_or_eq_of_mem_set hg with hmem | heq
        · exact hsz g hmem
        · have hlt : smallestIdx (g0 :: grest) < (g0 :: grest).length :=
            smallestIdx_lt _ (by simp)
          have hmem2 : (g0 :: grest).getD (smallestIdx (g0 :: grest)) [] ∈ (g0 :: grest) := by
            rw [List.getD_eq_getElem _ _ hlt]
            exact List.getElem_mem hlt
          have h3g := hsz _ hmem2
          rw [heq, List.length_append]
          omega
  · rw [if_neg hcur] at hg
    exact hsz g hg

/-- Witness for C10 at a concrete genome decoding to one group of three. -/
theorem c10_witness :
    [0, 1, 2] ∈ decode_individual [0, 0, 0] ∧
    3 ≤ ([0, 1, 2] : List ℕ).length := by
  have hmem : [0, 1, 2] ∈ decode_individual [0, 0, 0] := by
    with_unfolding_all decide
  exact ⟨hmem, c10_decode_min_size [0, 0, 0] [0, 1, 2] hmem⟩

/-- C4 is false as stated: for a 2-gene genome with both genes above 0.5 no
group is ever emitted and the dangling current group [0, 1] is dropped
(the Python if/elif has no else branch), so the decoder returns [] instead
of keeping the dangling group. -/
theorem c4_counterexample :
    decode_individual [3/5, 3/5] = [] ∧
    decode_individual [3/5, 3/5] ≠ [[0, 1]] := by
  have h : decode_individual [3/5, 3/5] = [] := by
    with_unfolding_all rfl
  refine ⟨h, ?_⟩
  rw [h]
  simp

/-- C4 amended: a dangling current group below min_group_size is merged
into the smallest already-emitted group when at least one group has been
emitted; when none has been emitted its members are dropped.  A drop can
only happen when nothing was ever emitted, i.e. when the whole genome is
shorter than min_group_size; hence for every genome of length at least 3
the decoder loses no member: the decoded groups cover every index exactly
once. -/
theorem c4_amended_decode_covers (individual : List ℚ)
    (h3 : 3 ≤ individual.length) :
    (decode_individual individual).flatten.Perm (List.range individual.length) := by
  have hflat := decodeLoop_flatten individual.enum [] []
  simp only [List.flatten_nil, List.nil_append, List.enum_map_fst] at hflat
  unfold decode_individual
  dsimp only
  by_cases hcur : (decodeLoop individual.enum [] []).2 ≠ []
  · rw [if_pos hcur]
    by_cases hlen : 3 ≤ (decodeLoop individual.enum [] []).2.length
    · rw [if_pos hlen]
      rw [List.flatten_append]
      simp only [List.flatten_cons, List.flatten_nil, List.append_nil]
      rw [hflat]
    · rw [if_neg hlen]
      rcases hgr : (decodeLoop individual.enum [] []).1 with _ | ⟨g0, grest⟩
      · obtain ⟨_, hc⟩ := decodeLoop_groups_nil individual.enum [] [] hgr
        rw [List.nil_append, List.enum_map_fst] at hc
        rw [hc] at hlen
        simp at hlen
        omega
      · have hlt : smallestIdx (g0 :: grest) < (g0 :: grest).length :=
          smallestIdx_lt _ (by simp)
        refine (flatten_set_perm (g0 :: grest) _ hlt _).trans ?_
        rw [← hgr, hflat]
  · rw [if_neg hcur]
    rw [not_not] at hcur
    rw [hcur, List.append_nil] at hflat
    rw [hflat]

/-- Witness for C4 (amended) at a concrete 3-gene genome. -/
theorem c4_witness :
    3 ≤ ([0, 0, 0] : List ℚ).length ∧
    (decode_individual [0, 0, 0]).flatten.Perm
      (List.range ([0, 0, 0] : List ℚ).length) := by
  have h : 3 ≤ ([0, 0, 0] : List ℚ).length := by simp
  exact ⟨h, c4_amended_decode_covers [0, 0, 0] h⟩

theorem foldBest_ge (fit : List ℚ → ℚ) :
    ∀ (l : List (List ℚ)) (b : List ℚ),
      fit b ≤ fit (l.foldl (fun best h => if fit best < fit h then h else best) b) ∧
      ∀ x ∈ l, fit x ≤ fit (l.foldl (fun best h => if fit best < fit h then h else best) b) := by
  intro l
  induction l with
  | nil =>
    intro b
    exact ⟨le_refl _, by simp⟩
  | cons y ys ih =>
    intro b
    rw [List.foldl_cons]
    by_cases hy : fit b < fit y
    · rw [if_pos hy]
      obtain ⟨h1, h2⟩ := ih y
      refine ⟨le_trans (le_of_lt hy) h1, ?_⟩
      intro x hx
      rcases List.mem_cons.mp hx with hx | hx
      · rw [hx]
        exact h1
      · exact h2 x hx
    · rw [if_neg hy]
      obtain ⟨h1, h2⟩ := ih b
      refine ⟨h1, ?_⟩
      intro x hx
      rcases List.mem_cons.mp hx with hx | hx
      · rw [hx]
        exact le_trans (le_of_not_lt hy) h1
      · exact h2 x hx

theorem selBest1_ge (fit : List ℚ → ℚ) (pop : List (List ℚ)) (g : List ℚ)
    (hg : g ∈ pop) : fit g ≤ fit (selBest1 fit pop) := by
  rcases pop with _ | ⟨p0, ps⟩
  · simp at hg
  · simp only [selBest1]
    rcases List.mem_cons.mp hg with h | h
    · rw [h]
      exact (foldBest_ge fit ps p0).1
    · exact (foldBest_ge fit ps p0).2 g h

/-- C5 amended: the genome returned by form_groups_ga (tools.selBest over
the final population) has fitness at least that of every genome in the
FINAL population, for every population size, generation budget and random
stream.  The comparison of the claim against the initial population fails: the
loop has no elitism, so selection, crossover and mutation can lose the
best genome (see the counterexample). -/
theorem c5_amended_best_of_final (students : List Student) (target p g : ℕ)
    (S : ℕ → ℚ) :
    ∀ genome ∈ gaFinalPop students target p g S,
      gaFit students target genome ≤
        gaFit students target (gaBestGenome students target p g S) := by
  intro genome hg
  exact selBest1_ge _ _ genome hg

/-- Witness for C5 (amended) at a concrete run: 3 students, population 1,
0 generations, the zero stream. -/
theorem c5_witness :
    ([0, 0, 0] : List ℚ) ∈ gaFinalPop students3 4 1 0 (fun _ => 0) ∧
    gaFit students3 4 [0, 0, 0] ≤
      gaFit students3 4 (gaBestGenome students3 4 1 0 (fun _ => 0)) := by
  have hmem : ([0, 0, 0] : List ℚ) ∈ gaFinalPop students3 4 1 0 (fun _ => 0) := by
    with_unfolding_all decide
  exact ⟨hmem, c5_amended_best_of_final students3 4 1 0 (fun _ => 0) [0, 0, 0] hmem⟩

/-! C5 counterexample setup: six students with every attribute empty (all
GA pair scores are 0.5), population 50 and 100 generations (the
constructor defaults), and an adversarial random stream.  goodGenome
decodes to two groups of three (fitness 1); badGenome decodes to one
merged six-member group (fitness 0.5 - 100).  The first 300 stream draws
make the initial population [goodGenome, badGenome, ..., badGenome]; every
later draw is 0.9, so no crossover coin (< 0.7) or mutation coin (< 0.2)
ever hits and every tournament samples index floor(0.9 * 50) = 45 — a
badGenome slot — so the good genome is lost in the very first selection. -/

def cex6 : List Student := List.replicate 6 studentB

def goodGenome : List ℚ := [0, 0, 3/5, 0, 0, 3/5]

def badGenome : List ℚ := [0, 0, 0, 3/5, 0, 0]

def cexStream : ℕ → ℚ := fun n =>
  if n < 6 then (if n = 2 ∨ n = 5 then 3/5 else 0)
  else if n < 300 then (if n % 6 = 3 then 3/5 else 0)
  else 9/10

def constS : ℕ → ℚ := fun _ => 9/10

def cexMatrixLit : List (List ℚ) :=
  [[0, 1/2, 1/2, 1/2, 1/2, 1/2],
   [1/2, 0, 1/2, 1/2, 1/2, 1/2],
   [1/2, 1/2, 0, 1/2, 1/2, 1/2],
   [1/2, 1/2, 1/2, 0, 1/2, 1/2],
   [1/2, 1/2, 1/2, 1/2, 0, 1/2],
   [1/2, 1/2, 1/2, 1/2, 1/2, 0]]

set_option maxHeartbeats 1000000 in
theorem cexMatrix_eval : ga_create_compatibility_matrix cex6 = cexMatrixLit := by
  with_unfolding_all decide

theorem cex_fit_eq : gaFit cex6 4 = evaluate_grouping cexMatrixLit 4 := by
  unfold gaFit
  rw [cexMatrix_eval]

set_option maxHeartbeats 1000000 in
theorem cex_initpop :
    gaInitPop cex6 50 cexStream = goodGenome :: List.replicate 49 badGenome := by
  with_unfolding_all decide

theorem cex_shift300 : shiftS 300 cexStream = constS := by
  funext n
  simp only [shiftS, cexStream, constS]
  rw [if_neg (by omega), if_neg (by omega)]

set_option maxHeartbeats 4000000 in
theorem cex_gen0 :
    gaGeneration (evaluate_grouping cexMatrixLit 4)
      (goodGenome :: List.replicate 49 badGenome) constS =
      (List.replicate 50 badGenome, 225) := by
  with_unfolding_all decide

set_option maxHeartbeats 4000000 in
theorem cex_steady :
    gaGeneration (evaluate_grouping cexMatrixLit 4)
      (List.replicate 50 badGenome) constS =
      (List.replicate 50 badGenome, 225) := by
  with_unfolding_all decide

theorem cex_loop_steady (g : ℕ) :
    gaLoop (evaluate_grouping cexMatrixLit 4) g
      (List.replicate 50 badGenome) constS = List.replicate 50 badGenome := by
  induction g with
  | zero => rfl
  | succ g ih =>
    simp only [gaLoop]
    rw [cex_steady]
    exact ih

theorem cex_finalpop :
    gaFinalPop cex6 4 50 100 cexStream = List.replicate 50 badGenome := by
  unfold gaFinalPop
  rw [cex_fit_eq, cex_initpop]
  have h300 : 50 * cex6.length = 300 := by simp [cex6]
  rw [h300, cex_shift300]
  have h100 : (100 : ℕ) = 99 + 1 := rfl
  have hstep : ∀ (popl : List (List ℚ)) (S : ℕ → ℚ),
      gaLoop (evaluate_grouping cexMatrixLit 4) (99 + 1) popl S =
      gaLoop (evaluate_grouping cexMatrixLit 4) 99
        (gaGeneration (evaluate_grouping cexMatrixLit 4) popl S).1
        (shiftS (gaGeneration (evaluate_grouping cexMatrixLit 4) popl S).2 S) :=
    fun _ _ => rfl
  rw [h100, hstep, cex_gen0]
  exact cex_loop_steady 99

set_option maxHeartbeats 1000000 in
set_option maxRecDepth 8000 in
theorem cex_best : gaBestGenome cex6 4 50 100 cexStream = badGenome := by
  unfold gaBestGenome
  rw [cex_finalpop, cex_fit_eq]
  with_unfolding_all decide

/-- C5 is false as stated: on this run of form_groups_ga (population 50,
generations 100, the adversarial stream) the initial population contains
goodGenome, yet the best genome selected from the final population is
badGenome, whose fitness -99.5 is far below the fitness 1 of goodGenome — the
loop has no elitism, so the best initial genome does not survive. -/
theorem c5_counterexample :
    goodGenome ∈ gaInitPop cex6 50 cexStream ∧
    gaFit cex6 4 (gaBestGenome cex6 4 50 100 cexStream) <
      gaFit cex6 4 goodGenome := by
  constructor
  · rw [cex_initpop]
    exact List.mem_cons_self _ _
  · rw [cex_best, cex_fit_eq]
    with_unfolding_all decide

end MAS
